import Mathlib

/-!
Shallow embedding of `city_api.py` (City Scoring API).

Numbers are modelled exactly as rationals (`ℚ`); Python 3 `round` is modelled
as round-half-to-even. Python dictionaries are modelled as association lists
with dict semantics: assignment overwrites in place keeping the key's position,
a fresh key is appended (insertion order); iteration order is the list order.
Python's stable `list.sort(key=..., reverse=True)` is modelled as a stable
insertion sort with the reversed comparator.
-/

/-- One city's record as stored in `CITIES_DATA[city_key]`:
`{"city": city_name, "country": country, **city_data}` with all nine numeric
sub-indices present. -/
structure CityRecord where
  city : String
  country : String
  qualityOfLifeIndex : ℚ
  purchasingPowerIndex : ℚ
  safetyIndex : ℚ
  healthCareIndex : ℚ
  costOfLivingIndex : ℚ
  propertyPriceToIncomeRatio : ℚ
  trafficCommuteTimeIndex : ℚ
  pollutionIndex : ℚ
  climateIndex : ℚ
  deriving DecidableEq, Repr

/-- The two module-level dicts: `CITIES_DATA` (composite key → record) and
`COUNTRIES` (country → list of city names). -/
structure Catalog where
  citiesData : List (String × CityRecord)
  countries : List (String × List String)
  deriving DecidableEq, Repr

def Catalog.empty : Catalog := ⟨[], []⟩

/-- Python dict assignment `d[k] = v`: if `k` is present, overwrite its value in
place (position kept); otherwise append `(k, v)` at the end. -/
def dictInsert {α : Type} (k : String) (v : α) : List (String × α) → List (String × α)
  | [] => [(k, v)]
  | (k', v') :: rest => if k' = k then (k, v) :: rest else (k', v') :: dictInsert k v rest

/-- Python `d[k].append(v)` on a dict of lists. At every call site in the source
the key is present (it was assigned at the start of the group), so the
missing-key case never fires. -/
def dictAppend {α : Type} (k : String) (v : α) : List (String × List α) → List (String × List α)
  | [] => []
  | (k', vs) :: rest => if k' = k then (k', vs ++ [v]) :: rest else (k', vs) :: dictAppend k v rest

/-- The key list of an association list (dict iteration order). -/
def keys {α : Type} (l : List (String × α)) : List String := l.map Prod.fst

/-- A raw city entry of the JSON dataset. `cityName = none` models a missing
`"city"` key, which raises `KeyError` during `load_cities_data`. The nine
sub-indices are only read at request time, so they are kept unconditionally. -/
structure RawCity where
  cityName : Option String
  qualityOfLifeIndex : ℚ
  purchasingPowerIndex : ℚ
  safetyIndex : ℚ
  healthCareIndex : ℚ
  costOfLivingIndex : ℚ
  propertyPriceToIncomeRatio : ℚ
  trafficCommuteTimeIndex : ℚ
  pollutionIndex : ℚ
  climateIndex : ℚ
  deriving DecidableEq, Repr

/-- A `{"country": ..., "cities": [...]}` group of the dataset; `country = none`
models a missing `"country"` key (`KeyError` while loading). -/
structure CountryGroup where
  country : Option String
  cities : List RawCity
  deriving DecidableEq, Repr

/-- Outcome of opening and `json.load`-ing the data file: either a parse/read
failure (raised before any global is touched) or the parsed group list. -/
inductive LoadInput where
  | parseError (msg : String)
  | parsed (groups : List CountryGroup)

/-- `city_key = f"{city_name}, {country}"` (composite key). -/
def cityKey (cityName country : String) : String := cityName ++ ", " ++ country

/-- `{"city": city_name, "country": country, **city_data}`. -/
def mkRecord (name country : String) (rc : RawCity) : CityRecord :=
  { city := name
    country := country
    qualityOfLifeIndex := rc.qualityOfLifeIndex
    purchasingPowerIndex := rc.purchasingPowerIndex
    safetyIndex := rc.safetyIndex
    healthCareIndex := rc.healthCareIndex
    costOfLivingIndex := rc.costOfLivingIndex
    propertyPriceToIncomeRatio := rc.propertyPriceToIncomeRatio
    trafficCommuteTimeIndex := rc.trafficCommuteTimeIndex
    pollutionIndex := rc.pollutionIndex
    climateIndex := rc.climateIndex }

/-- Loop body for one city: `CITIES_DATA[city_key] = ...` then
`COUNTRIES[country].append(city_name)`. `none` models the `KeyError` raised by
`city_data["city"]` when the field is missing. -/
def loadCity (st : Catalog) (country : String) (rc : RawCity) : Option Catalog :=
  match rc.cityName with
  | none => none
  | some name =>
    some { citiesData := dictInsert (cityKey name country) (mkRecord name country rc) st.citiesData
           countries := dictAppend country name st.countries }

/-- The inner `for city_data in country_data["cities"]` loop. The `Bool` is
`false` when a `KeyError` aborted the loop; the returned state is whatever the
globals held at that point (the exception handler only prints). -/
def loadCities : Catalog → String → List RawCity → Catalog × Bool
  | st, _, [] => (st, true)
  | st, c, rc :: rest =>
    match loadCity st c rc with
    | none => (st, false)
    | some st' => loadCities st' c rest

/-- One iteration of the outer `for country_data in countries_list` loop:
`COUNTRIES[country] = []` (this resets any earlier entry for the same country),
then the inner city loop. -/
def loadGroup (st : Catalog) (g : CountryGroup) : Catalog × Bool :=
  match g.country with
  | none => (st, false)
  | some c => loadCities { st with countries := dictInsert c [] st.countries } c g.cities

/-- The outer loop over country groups; stops at the first failure, keeping the
state accumulated so far. -/
def loadGroups : Catalog → List CountryGroup → Catalog × Bool
  | st, [] => (st, true)
  | st, g :: rest =>
    match loadGroup st g with
    | (st', true) => loadGroups st' rest
    | (st', false) => (st', false)

/-- `load_cities_data()`: on a read/parse failure the globals are untouched
(still empty); otherwise the groups are processed in order, a mid-loop
`KeyError` leaving the partially populated state in place. -/
def load_cities_data : LoadInput → Catalog
  | .parseError _ => Catalog.empty
  | .parsed gs => (loadGroups Catalog.empty gs).1

/-- Round to the nearest integer, ties to even (Python 3 `round` on exact
values). -/
def roundHalfEven (q : ℚ) : ℤ :=
  if q - ⌊q⌋ < 1/2 then ⌊q⌋
  else if q - ⌊q⌋ > 1/2 then ⌊q⌋ + 1
  else if ⌊q⌋ % 2 = 0 then ⌊q⌋ else ⌊q⌋ + 1

/-- Python `round(x, 1)`. -/
def round1 (q : ℚ) : ℚ := (roundHalfEven (q * 10) : ℚ) / 10

/-- Python `s.lower()` (ASCII case folding, which covers the matching the
service performs). -/
def strLower (s : String) : String := ⟨s.data.map Char.toLower⟩

/-- Python `needle in hay` on strings: contiguous substring test (the empty
needle is contained in everything). -/
def strContains (hay needle : String) : Bool :=
  (List.range (hay.data.length + 1)).any fun i => needle.data.isPrefixOf (hay.data.drop i)

/-- `search_city`: all records whose `city` field contains the query
case-insensitively, in dict iteration order. -/
def search_city (cat : Catalog) (city_name : String) : List (String × CityRecord) :=
  cat.citiesData.filter fun p => strContains (strLower p.2.city) (strLower city_name)

/-- `stage_score`: the weighted composite score, written exactly as in the
source. -/
def stage_score (r : CityRecord) : ℚ :=
  r.qualityOfLifeIndex * 0.25 +
  r.safetyIndex * 0.20 +
  r.purchasingPowerIndex * 0.15 +
  (100 - r.costOfLivingIndex) * 0.15 +
  r.healthCareIndex * 0.10 +
  (100 - r.pollutionIndex) * 0.10 +
  r.climateIndex * 0.05

/-- The recommendation label and level chosen by the threshold chain on the raw
score. -/
def recommendation_of (s : ℚ) : String × String :=
  if s ≥ 120 then ("Excellent choix", "excellent")
  else if s ≥ 100 then ("Bon choix", "good")
  else if s ≥ 80 then ("Choix correct", "average")
  else ("À considérer avec précaution", "poor")

/-- The JSON body of a successful `/city/score` response. -/
structure ScoreResult where
  city : String
  country : String
  scores_qualityOfLife : ℚ
  scores_purchasingPower : ℚ
  scores_safety : ℚ
  scores_healthCare : ℚ
  scores_costOfLiving : ℚ
  scores_propertyPriceToIncome : ℚ
  scores_trafficCommuteTime : ℚ
  scores_pollution : ℚ
  scores_climate : ℚ
  internshipScore : ℚ
  recommendation : String
  recommendationLevel : String
  deriving DecidableEq, Repr

/-- The success payload built from the canonical matched record. -/
def score_result (r : CityRecord) : ScoreResult :=
  { city := r.city
    country := r.country
    scores_qualityOfLife := round1 r.qualityOfLifeIndex
    scores_purchasingPower := round1 r.purchasingPowerIndex
    scores_safety := round1 r.safetyIndex
    scores_healthCare := round1 r.healthCareIndex
    scores_costOfLiving := round1 r.costOfLivingIndex
    scores_propertyPriceToIncome := round1 r.propertyPriceToIncomeRatio
    scores_trafficCommuteTime := round1 r.trafficCommuteTimeIndex
    scores_pollution := round1 r.pollutionIndex
    scores_climate := round1 r.climateIndex
    internshipScore := round1 (stage_score r)
    recommendation := (recommendation_of (stage_score r)).1
    recommendationLevel := (recommendation_of (stage_score r)).2 }

/-- The error responses of `/city/score`. -/
inductive ScoreError where
  | validation
  | serviceUnavailable
  | notFound
  | notFoundInCountry
  deriving DecidableEq, Repr

/-- The HTTP status attached to each error response. -/
def http_status : ScoreError → ℕ
  | .validation => 400
  | .serviceUnavailable => 500
  | .notFound => 404
  | .notFoundInCountry => 404

/-- `find_city_score` (`POST /city/score`): validation, availability and lookup
checks in source order, then the score of the first match. -/
def find_city_score (cat : Catalog) (city_name country : String) :
    Except ScoreError ScoreResult :=
  if city_name = "" then .error .validation
  else if cat.citiesData.isEmpty then .error .serviceUnavailable
  else
    match search_city cat city_name with
    | [] => .error .notFound
    | m :: ms =>
      if country = "" then .ok (score_result m.2)
      else
        match (m :: ms).filter (fun p => strContains (strLower p.2.country) (strLower country)) with
        | [] => .error .notFoundInCountry
        | m' :: _ => .ok (score_result m'.2)

/-- One entry of the `/cities/list` response. -/
structure CitySummary where
  city : String
  country : String
  qualityOfLife : ℚ
  costOfLiving : ℚ
  safety : ℚ
  deriving DecidableEq, Repr

def citySummary (r : CityRecord) : CitySummary :=
  { city := r.city
    country := r.country
    qualityOfLife := round1 r.qualityOfLifeIndex
    costOfLiving := round1 r.costOfLivingIndex
    safety := round1 r.safetyIndex }

/-- The three `continue` guards of the `/cities/list` loop, then the projected
summary. -/
def listFilteredEntry (country : String) (minq maxc : ℚ) (r : CityRecord) :
    Option CitySummary :=
  if country ≠ "" ∧ strContains (strLower r.country) (strLower country) = false then none
  else if r.qualityOfLifeIndex < minq then none
  else if r.costOfLivingIndex > maxc then none
  else some (citySummary r)

/-- The `filtered` list before sorting, in dict iteration order. -/
def list_cities_filtered (cat : Catalog) (country : String) (minq maxc : ℚ) :
    List CitySummary :=
  cat.citiesData.filterMap fun p => listFilteredEntry country minq maxc p.2

/-- The comparator of `filtered.sort(key=lambda x: x["qualityOfLife"],
reverse=True)`: descending by the rounded quality value. -/
def qualityGE (a b : CitySummary) : Prop := b.qualityOfLife ≤ a.qualityOfLife

instance : DecidableRel qualityGE := fun _ _ => inferInstanceAs (Decidable (_ ≤ _))

instance : IsTotal CitySummary qualityGE := ⟨fun a b => le_total b.qualityOfLife a.qualityOfLife⟩

instance : IsTrans CitySummary qualityGE := ⟨fun _ _ _ hab hbc => le_trans hbc hab⟩

/-- `list_cities` (`GET /cities/list`): filter, stable descending sort,
truncate to `limit`. -/
def list_cities (cat : Catalog) (country : String) (minq maxc : ℚ) (lim : ℕ) :
    Except String (ℕ × List CitySummary) :=
  if cat.citiesData.isEmpty then .error "Aucune donnée chargée"
  else
    let trunc := ((list_cities_filtered cat country minq maxc).insertionSort qualityGE).take lim
    .ok (trunc.length, trunc)

/-- The comparator of `sorted(COUNTRIES.items(), key=lambda x: len(x[1]),
reverse=True)`. -/
def countGE (a b : String × List String) : Prop := b.2.length ≤ a.2.length

instance : DecidableRel countGE := fun _ _ => inferInstanceAs (Decidable (_ ≤ _))

instance : IsTotal (String × List String) countGE := ⟨fun a b => le_total b.2.length a.2.length⟩

instance : IsTrans (String × List String) countGE := ⟨fun _ _ _ hab hbc => le_trans hbc hab⟩

/-- `get_countries` (`GET /countries`): per-country city counts sorted
descending by count, with the totals. -/
def get_countries (cat : Catalog) : Except String (ℕ × ℕ × List (String × ℕ)) :=
  if cat.countries.isEmpty then .error "Aucune donnée chargée"
  else
    .ok (cat.countries.length, cat.citiesData.length,
      (cat.countries.insertionSort countGE).map fun p => (p.1, p.2.length))

/-- `health_check` (`GET /health`): the two counters. -/
def health_check (cat : Catalog) : ℕ × ℕ :=
  (cat.citiesData.length, cat.countries.length)

/-- A request to one of the four endpoints. -/
inductive Request where
  | score (city_name country : String)
  | cities (country : String) (minq maxc : ℚ) (lim : ℕ)
  | countriesReq
  | healthReq
  deriving DecidableEq

/-- A response from one of the four endpoints. -/
inductive Response where
  | score (r : Except ScoreError ScoreResult)
  | cities (r : Except String (ℕ × List CitySummary))
  | countriesRes (r : Except String (ℕ × ℕ × List (String × ℕ)))
  | healthRes (r : ℕ × ℕ)

/-- One request dispatch. The second component is the state of the module
globals after the handler returns: none of the four handlers assigns to
`CITIES_DATA` or `COUNTRIES` (only `load_cities_data` does), so the state is
returned unchanged, read straight off the source. -/
def handle (st : Catalog) : Request → Response × Catalog
  | .score n c => (.score (find_city_score st n c), st)
  | .cities c mq mc lim => (.cities (list_cities st c mq mc lim), st)
  | .countriesReq => (.countriesRes (get_countries st), st)
  | .healthReq => (.healthRes (health_check st), st)

/-- The city names of a group's entries that are present (`filterMap` keeps
dataset order; on a fully processed group this is every name in order). -/
def groupNames (g : CountryGroup) : List String := g.cities.filterMap (·.cityName)

/-- The composite keys generated by the entries of one group. -/
def cityKeys (c : String) (cities : List RawCity) : List String :=
  cities.filterMap fun rc => rc.cityName.map fun n => cityKey n c

/-- The composite keys generated by one group. -/
def groupKeys (g : CountryGroup) : List String :=
  match g.country with
  | none => []
  | some c => cityKeys c g.cities

/-- All composite keys generated by the dataset. -/
def allCityKeys (gs : List CountryGroup) : List String := gs.flatMap groupKeys

/-- The country names of the dataset's groups, in order. -/
def groupCountries (gs : List CountryGroup) : List String := gs.filterMap (·.country)

/-- The sum of the per-country city-name counts (what the `cityCount` fields of
`/countries` add up to). -/
def sumCounts (l : List (String × List String)) : ℕ := (l.map fun p => p.2.length).sum

/-! ### Concrete sample data (used by witnesses) -/

/-- The Berlin record of the spec's end-to-end example (sub-indices in field
order: quality, purchasing, safety, healthCare, costOfLiving, propertyPrice,
trafficCommute, pollution, climate). -/
def berlinRaw : RawCity := ⟨some "Berlin", 180, 70, 85, 80, 60, 10, 30, 30, 65⟩

def germanyGroup : CountryGroup := ⟨some "Germany", [berlinRaw]⟩

def berlinCatalog : Catalog := load_cities_data (.parsed [germanyGroup])

def berlinRec : CityRecord := mkRecord "Berlin" "Germany" berlinRaw

/-! ### Helper lemmas -/

lemma search_city_subset {cat : Catalog} {n : String} {p : String × CityRecord}
    (h : p ∈ search_city cat n) : p ∈ cat.citiesData := by
  unfold search_city at h
  exact (List.mem_filter.1 h).1

/-- A successful `/city/score` response is the payload of some record of the
catalog (the canonical first match). -/
lemma find_ok_exists {cat : Catalog} {n c : String} {res : ScoreResult}
    (h : find_city_score cat n c = .ok res) :
    ∃ p, p ∈ cat.citiesData ∧ res = score_result p.2 := by
  unfold find_city_score at h
  split at h
  · cases h
  split at h
  · cases h
  split at h
  · cases h
  next m ms heq =>
    split at h
    · refine ⟨m, search_city_subset (heq ▸ List.mem_cons_self m ms), ?_⟩
      cases h
      rfl
    · split at h
      · cases h
      next m' tl heq2 =>
        have hm' : m' ∈ m :: ms := by
          have : m' ∈ (m :: ms).filter
              (fun p => strContains (strLower p.2.country) (strLower c)) := by
            rw [heq2]; exact List.mem_cons_self m' tl
          exact (List.mem_filter.1 this).1
        refine ⟨m', search_city_subset (heq ▸ hm'), ?_⟩
        cases h
        rfl

/-! ### Claim C1 -/

/-- C1: for every record a successful `ScoreCity` response carries, the
composite score is the documented weighted formula and `internshipScore` is
that value rounded to one decimal; in particular the Berlin example record
scores 96.75, rounded 96.8, tier average. -/
theorem C1_score_formula :
    (∀ (cat : Catalog) (n c : String) (res : ScoreResult),
        find_city_score cat n c = .ok res →
        ∃ p, p ∈ cat.citiesData ∧ res = score_result p.2 ∧
          res.internshipScore = round1 (0.25 * p.2.qualityOfLifeIndex +
            0.20 * p.2.safetyIndex + 0.15 * p.2.purchasingPowerIndex +
            0.15 * (100 - p.2.costOfLivingIndex) + 0.10 * p.2.healthCareIndex +
            0.10 * (100 - p.2.pollutionIndex) + 0.05 * p.2.climateIndex)) ∧
    stage_score berlinRec = 96.75 ∧
    round1 (stage_score berlinRec) = 96.8 ∧
    (recommendation_of (stage_score berlinRec)).2 = "average" := by
  refine ⟨?_, ?_, ?_, ?_⟩
  · intro cat n c res h
    obtain ⟨p, hp, hres⟩ := find_ok_exists h
    refine ⟨p, hp, hres, ?_⟩
    have hform : stage_score p.2 = 0.25 * p.2.qualityOfLifeIndex +
        0.20 * p.2.safetyIndex + 0.15 * p.2.purchasingPowerIndex +
        0.15 * (100 - p.2.costOfLivingIndex) + 0.10 * p.2.healthCareIndex +
        0.10 * (100 - p.2.pollutionIndex) + 0.05 * p.2.climateIndex := by
      unfold stage_score; ring
    rw [hres]
    show round1 (stage_score p.2) = _
    rw [hform]
  · norm_num [stage_score, berlinRec, mkRecord, berlinRaw]
  · norm_num [stage_score, berlinRec, mkRecord, berlinRaw, round1, roundHalfEven]
  · norm_num [stage_score, berlinRec, mkRecord, berlinRaw, recommendation_of]

theorem C1_score_formula_witness :
    ∃ p, p ∈ berlinCatalog.citiesData ∧ score_result berlinRec = score_result p.2 ∧
      (score_result berlinRec).internshipScore = round1 (0.25 * p.2.qualityOfLifeIndex +
        0.20 * p.2.safetyIndex + 0.15 * p.2.purchasingPowerIndex +
        0.15 * (100 - p.2.costOfLivingIndex) + 0.10 * p.2.healthCareIndex +
        0.10 * (100 - p.2.pollutionIndex) + 0.05 * p.2.climateIndex) :=
  C1_score_formula.1 berlinCatalog "Berlin" "" (score_result berlinRec) rfl

/-! ### Claim C2 -/

/-- C2: the recommendation tier is a threshold function of the raw (unrounded)
composite score, with boundaries closed below: `≥ 120` excellent, `[100, 120)`
good, `[80, 100)` average, `< 80` poor; exactly 120 is excellent, exactly 100
good, exactly 80 average; and a successful response's `recommendationLevel` is
that function applied to the matched record's raw score. -/
theorem C2_tier_thresholds :
    (∀ s : ℚ, 120 ≤ s → (recommendation_of s).2 = "excellent") ∧
    (∀ s : ℚ, 100 ≤ s → s < 120 → (recommendation_of s).2 = "good") ∧
    (∀ s : ℚ, 80 ≤ s → s < 100 → (recommendation_of s).2 = "average") ∧
    (∀ s : ℚ, s < 80 → (recommendation_of s).2 = "poor") ∧
    (recommendation_of 120).2 = "excellent" ∧
    (recommendation_of 100).2 = "good" ∧
    (recommendation_of 80).2 = "average" ∧
    (∀ (cat : Catalog) (n c : String) (res : ScoreResult),
        find_city_score cat n c = .ok res →
        ∃ p, p ∈ cat.citiesData ∧
          res.recommendationLevel = (recommendation_of (stage_score p.2)).2) := by
  have hex : ∀ s : ℚ, 120 ≤ s → (recommendation_of s).2 = "excellent" := by
    intro s hs; rw [recommendation_of, if_pos hs]
  have hgood : ∀ s : ℚ, 100 ≤ s → s < 120 → (recommendation_of s).2 = "good" := by
    intro s hs hs'
    rw [recommendation_of, if_neg (by simpa using not_le.2 hs'), if_pos hs]
  have havg : ∀ s : ℚ, 80 ≤ s → s < 100 → (recommendation_of s).2 = "average" := by
    intro s hs hs'
    rw [recommendation_of, if_neg (by simpa using not_le.2 (by linarith : s < 120)),
      if_neg (by simpa using not_le.2 hs'), if_pos hs]
  refine ⟨hex, hgood, havg, ?_, hex 120 le_rfl, hgood 100 le_rfl (by norm_num),
    havg 80 le_rfl (by norm_num), ?_⟩
  · intro s hs
    rw [recommendation_of, if_neg (by simpa using not_le.2 (by linarith : s < 120)),
      if_neg (by simpa using not_le.2 (by linarith : s < 100)),
      if_neg (by simpa using not_le.2 hs)]
  · intro cat n c res h
    obtain ⟨p, hp, hres⟩ := find_ok_exists h
    exact ⟨p, hp, by rw [hres]; rfl⟩

theorem C2_tier_thresholds_witness :
    (recommendation_of 150).2 = "excellent" ∧ (recommendation_of 110).2 = "good" ∧
    (recommendation_of 90).2 = "average" ∧ (recommendation_of 70).2 = "poor" :=
  ⟨C2_tier_thresholds.1 150 (by norm_num),
   C2_tier_thresholds.2.1 110 (by norm_num) (by norm_num),
   C2_tier_thresholds.2.2.1 90 (by norm_num) (by norm_num),
   C2_tier_thresholds.2.2.2.1 70 (by norm_num)⟩

/-! ### Claim C5 -/

/-- C5: `ScoreCity` checks its error conditions in source order: an empty
`city_name` gives ValidationError (400) regardless of catalog state; otherwise
an empty catalog gives ServiceUnavailableError (500); otherwise, if no record's
city field contains the query case-insensitively, NotFoundError (404). -/
theorem C5_error_order :
    (∀ (cat : Catalog) (c : String), find_city_score cat "" c = .error .validation) ∧
    (∀ (cat : Catalog) (n c : String), n ≠ "" → cat.citiesData = [] →
        find_city_score cat n c = .error .serviceUnavailable) ∧
    (∀ (cat : Catalog) (n c : String), n ≠ "" → cat.citiesData ≠ [] →
        (∀ p ∈ cat.citiesData, strContains (strLower p.2.city) (strLower n) = false) →
        find_city_score cat n c = .error .notFound) ∧
    http_status .validation = 400 ∧ http_status .serviceUnavailable = 500 ∧
    http_status .notFound = 404 := by
  refine ⟨?_, ?_, ?_, rfl, rfl, rfl⟩
  · intro cat c
    rw [find_city_score, if_pos rfl]
  · intro cat n c hn he
    rw [find_city_score, if_neg hn, if_pos (by simp [List.isEmpty_iff, he])]
  · intro cat n c hn hne hall
    have hs : search_city cat n = [] := by
      unfold search_city
      rw [List.filter_eq_nil_iff]
      intro p hp
      simp [hall p hp]
    rw [find_city_score, if_neg hn, if_neg (by simp [List.isEmpty_iff, hne]), hs]

theorem C5_error_order_witness :
    find_city_score Catalog.empty "" "x" = .error .validation ∧
    find_city_score Catalog.empty "Berlin" "" = .error .serviceUnavailable ∧
    find_city_score berlinCatalog "zzz" "" = .error .notFound :=
  ⟨C5_error_order.1 Catalog.empty "x",
   C5_error_order.2.1 Catalog.empty "Berlin" "" (by decide) rfl,
   C5_error_order.2.2.1 berlinCatalog "zzz" "" (by decide) (by decide) (by decide)⟩

/-! ### Claim C9 -/

/-- C9: every endpoint is a pure function of the catalog snapshot and the
arguments: identical state and arguments give identical responses, and the
dispatch returns the catalog unchanged (no handler assigns to the globals). -/
theorem C9_purity (st st' : Catalog) (req req' : Request)
    (hst : st = st') (hreq : req = req') :
    handle st req = handle st' req' ∧ (handle st req).2 = st := by
  subst hst
  subst hreq
  exact ⟨rfl, by cases req <;> rfl⟩

theorem C9_purity_witness :
    handle berlinCatalog .healthReq = handle berlinCatalog .healthReq ∧
    (handle berlinCatalog .healthReq).2 = berlinCatalog :=
  C9_purity berlinCatalog berlinCatalog .healthReq .healthReq rfl rfl

/-! ### Claim C10 -/

/-- C10: the composite score, the recommendation label and the recommendation
level depend only on the seven weighted sub-indices: two records that agree on
them (but may differ in `propertyPriceToIncomeRatio` and
`trafficCommuteTimeIndex`) get identical `internshipScore`, `recommendation`
and `recommendationLevel`. -/
theorem C10_seven_field_dependence (r1 r2 : CityRecord)
    (h1 : r1.qualityOfLifeIndex = r2.qualityOfLifeIndex)
    (h2 : r1.safetyIndex = r2.safetyIndex)
    (h3 : r1.purchasingPowerIndex = r2.purchasingPowerIndex)
    (h4 : r1.costOfLivingIndex = r2.costOfLivingIndex)
    (h5 : r1.healthCareIndex = r2.healthCareIndex)
    (h6 : r1.pollutionIndex = r2.pollutionIndex)
    (h7 : r1.climateIndex = r2.climateIndex) :
    (score_result r1).internshipScore = (score_result r2).internshipScore ∧
    (score_result r1).recommendation = (score_result r2).recommendation ∧
    (score_result r1).recommendationLevel = (score_result r2).recommendationLevel := by
  have hs : stage_score r1 = stage_score r2 := by
    unfold stage_score
    rw [h1, h2, h3, h4, h5, h6, h7]
  exact ⟨by simp [score_result, hs], by simp [score_result, hs], by simp [score_result, hs]⟩

/-- Two sample records that differ only in the two unweighted sub-indices. -/
def sampleRecA : CityRecord := mkRecord "X" "Z" ⟨some "X", 1, 2, 3, 4, 5, 6, 7, 8, 9⟩

def sampleRecB : CityRecord := mkRecord "X" "Z" ⟨some "X", 1, 2, 3, 4, 5, 66, 77, 8, 9⟩

theorem C10_seven_field_dependence_witness :
    (score_result sampleRecA).internshipScore = (score_result sampleRecB).internshipScore ∧
    (score_result sampleRecA).recommendation = (score_result sampleRecB).recommendation ∧
    (score_result sampleRecA).recommendationLevel = (score_result sampleRecB).recommendationLevel :=
  C10_seven_field_dependence sampleRecA sampleRecB rfl rfl rfl rfl rfl rfl rfl

/-! ### Claim C6 -/

/-- The fields a record must satisfy to pass the `/cities/list` guards, and the
projection it is kept under. -/
lemma listFilteredEntry_some {country : String} {minq maxc : ℚ} {r : CityRecord}
    {s : CitySummary} (h : listFilteredEntry country minq maxc r = some s) :
    (country = "" ∨ strContains (strLower r.country) (strLower country) = true) ∧
    minq ≤ r.qualityOfLifeIndex ∧ r.costOfLivingIndex ≤ maxc ∧ s = citySummary r := by
  unfold listFilteredEntry at h
  by_cases h1 : country ≠ "" ∧ strContains (strLower r.country) (strLower country) = false
  · rw [if_pos h1] at h
    cases h
  rw [if_neg h1] at h
  by_cases h2 : r.qualityOfLifeIndex < minq
  · rw [if_pos h2] at h
    cases h
  rw [if_neg h2] at h
  by_cases h3 : r.costOfLivingIndex > maxc
  · rw [if_pos h3] at h
    cases h
  rw [if_neg h3] at h
  obtain rfl : citySummary r = s := Option.some_injective _ h
  refine ⟨?_, not_lt.1 h2, not_lt.1 h3, rfl⟩
  by_cases hc : country = ""
  · exact Or.inl hc
  · right
    rcases Bool.eq_false_or_eq_true (strContains (strLower r.country) (strLower country))
      with hb | hb
    · exact hb
    · exact absurd ⟨hc, hb⟩ h1

/-- C6: a successful `/cities/list` result is sorted non-increasing by the
(rounded) `qualityOfLife` value, has at most `limit` entries, each entry is the
projection of a catalog record passing the country/quality/cost guards, the
sort is stable (any run already ordered within the filtered sequence keeps its
relative order), and the output is exactly the truncated stable sort of the
filtered sequence. -/
theorem C6_list_contract (cat : Catalog) (country : String) (minq maxc : ℚ) (lim : ℕ)
    (n : ℕ) (out : List CitySummary)
    (h : list_cities cat country minq maxc lim = .ok (n, out)) :
    out.Pairwise (fun a b => b.qualityOfLife ≤ a.qualityOfLife) ∧
    out.length ≤ lim ∧
    (∀ s ∈ out, ∃ p, p ∈ cat.citiesData ∧
        (country = "" ∨ strContains (strLower p.2.country) (strLower country) = true) ∧
        minq ≤ p.2.qualityOfLifeIndex ∧ p.2.costOfLivingIndex ≤ maxc ∧
        s = citySummary p.2) ∧
    (∀ c' : List CitySummary, c'.Pairwise qualityGE →
        c'.Sublist (list_cities_filtered cat country minq maxc) →
        c'.Sublist ((list_cities_filtered cat country minq maxc).insertionSort qualityGE)) ∧
    out = ((list_cities_filtered cat country minq maxc).insertionSort qualityGE).take lim := by
  unfold list_cities at h
  split at h
  · cases h
  · rw [Except.ok.injEq, Prod.mk.injEq] at h
    obtain ⟨-, hout⟩ := h
    subst hout
    refine ⟨?_, ?_, ?_, fun c' hp hsub => List.sublist_insertionSort hp hsub, rfl⟩
    · exact List.Pairwise.sublist (List.take_sublist _ _)
        (List.sorted_insertionSort qualityGE _)
    · simpa using min_le_left lim _
    · intro s hs
      have hs' : s ∈ list_cities_filtered cat country minq maxc :=
        (List.perm_insertionSort qualityGE _).mem_iff.1
          ((List.take_sublist _ _).subset hs)
      obtain ⟨p, hp, hsome⟩ := List.mem_filterMap.1 hs'
      obtain ⟨hc, hq, hcost, hsum⟩ := listFilteredEntry_some hsome
      exact ⟨p, hp, hc, hq, hcost, hsum⟩

theorem C6_list_contract_witness :
    [citySummary berlinRec].Pairwise (fun a b => b.qualityOfLife ≤ a.qualityOfLife) ∧
    [citySummary berlinRec].length ≤ 20 ∧
    (∀ s ∈ [citySummary berlinRec], ∃ p, p ∈ berlinCatalog.citiesData ∧
        (("" : String) = "" ∨ strContains (strLower p.2.country) (strLower "") = true) ∧
        (0 : ℚ) ≤ p.2.qualityOfLifeIndex ∧ p.2.costOfLivingIndex ≤ (200 : ℚ) ∧
        s = citySummary p.2) ∧
    (∀ c' : List CitySummary, c'.Pairwise qualityGE →
        c'.Sublist (list_cities_filtered berlinCatalog "" 0 200) →
        c'.Sublist ((list_cities_filtered berlinCatalog "" 0 200).insertionSort qualityGE)) ∧
    [citySummary berlinRec]
      = ((list_cities_filtered berlinCatalog "" 0 200).insertionSort qualityGE).take 20 :=
  C6_list_contract berlinCatalog "" 0 200 20 1 [citySummary berlinRec] rfl

/-! ### Claim C7 -/

/-- C7 (amended): with `min_quality = 999`, a non-empty catalog all of whose
records have `qualityOfLifeIndex < 999` yields `{total: 0, cities: []}`,
whatever the other arguments are. -/
theorem C7_minq999 (cat : Catalog) (country : String) (maxc : ℚ) (lim : ℕ)
    (hne : cat.citiesData ≠ [])
    (hbound : ∀ p ∈ cat.citiesData, p.2.qualityOfLifeIndex < 999) :
    list_cities cat country 999 maxc lim = .ok (0, []) := by
  have hfil : list_cities_filtered cat country 999 maxc = [] := by
    unfold list_cities_filtered
    rw [List.filterMap_eq_nil_iff]
    intro p hp
    have hq := hbound p hp
    unfold listFilteredEntry
    split_ifs <;> simp_all
  unfold list_cities
  rw [if_neg (by simp [List.isEmpty_iff, hne])]
  simp [hfil]

theorem C7_minq999_witness : list_cities berlinCatalog "" 999 200 20 = .ok (0, []) :=
  C7_minq999 berlinCatalog "" 200 20 (by decide)
    (by intro p hp; fin_cases hp <;> norm_num [berlinRaw, mkRecord])

/-- A record whose `qualityOfLifeIndex` exceeds 999 (the sub-indices are not
bounded by the data model). -/
def utopiaRaw : RawCity := ⟨some "Utopia", 1000, 70, 85, 80, 60, 10, 30, 30, 65⟩

def utopiaCatalog : Catalog := load_cities_data (.parsed [⟨some "Nowhere", [utopiaRaw]⟩])

theorem C7_minq999_cex :
    utopiaCatalog.citiesData ≠ [] ∧
    list_cities utopiaCatalog "" 999 200 20 ≠ .ok (0, []) := by
  constructor
  · decide
  · have hres : list_cities utopiaCatalog "" 999 200 20
        = .ok (1, [citySummary (mkRecord "Utopia" "Nowhere" utopiaRaw)]) := rfl
    rw [hres]
    simp

/-! ### Dictionary lemmas for the load phase -/

lemma mem_keys_cons {α : Type} {k k' : String} {v' : α} {rest : List (String × α)} :
    k ∈ keys ((k', v') :: rest) ↔ k = k' ∨ k ∈ keys rest := by
  simp [keys]

lemma keys_append {α : Type} (l1 l2 : List (String × α)) :
    keys (l1 ++ l2) = keys l1 ++ keys l2 := by
  simp [keys]

lemma dictInsert_of_not_mem {α : Type} {k : String} {l : List (String × α)} (v : α)
    (h : k ∉ keys l) : dictInsert k v l = l ++ [(k, v)] := by
  induction l with
  | nil => rfl
  | cons p rest ih =>
    obtain ⟨k', v'⟩ := p
    have h1 : k' ≠ k := fun he => h (mem_keys_cons.2 (Or.inl he.symm))
    have h2 : k ∉ keys rest := fun hm => h (mem_keys_cons.2 (Or.inr hm))
    simp [dictInsert, h1, ih h2]

lemma dictInsert_replace {α : Type} {c : String} {l1 l2 : List (String × α)} {w : α} (v : α)
    (h : c ∉ keys l1) : dictInsert c v (l1 ++ (c, w) :: l2) = l1 ++ (c, v) :: l2 := by
  induction l1 with
  | nil => simp [dictInsert]
  | cons p rest ih =>
    obtain ⟨k', v'⟩ := p
    have h1 : k' ≠ c := fun he => h (mem_keys_cons.2 (Or.inl he.symm))
    have h2 : c ∉ keys rest := fun hm => h (mem_keys_cons.2 (Or.inr hm))
    simp [dictInsert, h1, ih h2]

lemma keys_dictAppend {α : Type} (k : String) (v : α) (l : List (String × List α)) :
    keys (dictAppend k v l) = keys l := by
  induction l with
  | nil => rfl
  | cons p rest ih =>
    obtain ⟨k', vs⟩ := p
    by_cases h : k' = k
    · simp [dictAppend, h, keys]
    · simp only [dictAppend, if_neg h]
      simpa [keys] using ih

lemma dictAppend_closed {α : Type} {c : String} {l1 l2 : List (String × List α)} {vs : List α}
    (v : α) (h : c ∉ keys l1) :
    dictAppend c v (l1 ++ (c, vs) :: l2) = l1 ++ (c, vs ++ [v]) :: l2 := by
  induction l1 with
  | nil => simp [dictAppend]
  | cons p rest ih =>
    obtain ⟨k', vs'⟩ := p
    have h1 : k' ≠ c := fun he => h (mem_keys_cons.2 (Or.inl he.symm))
    have h2 : c ∉ keys rest := fun hm => h (mem_keys_cons.2 (Or.inr hm))
    simp [dictAppend, h1, ih h2]

lemma sumCounts_append (l1 l2 : List (String × List String)) :
    sumCounts (l1 ++ l2) = sumCounts l1 + sumCounts l2 := by
  simp [sumCounts]

lemma sumCounts_dictAppend {k v : String} {l : List (String × List String)}
    (h : k ∈ keys l) : sumCounts (dictAppend k v l) = sumCounts l + 1 := by
  induction l with
  | nil => simp [keys] at h
  | cons p rest ih =>
    obtain ⟨k', vs⟩ := p
    by_cases hk : k' = k
    · simp [dictAppend, hk, sumCounts]
      omega
    · have h' : k ∈ keys rest := by
        rcases mem_keys_cons.1 h with h1 | h1
        · exact absurd h1.symm hk
        · exact h1
      have ihh := ih h'
      simp [dictAppend, hk, sumCounts] at ihh ⊢
      omega


/-! ### Load-phase invariants -/

lemma allCityKeys_cons (g : CountryGroup) (rest : List CountryGroup) :
    allCityKeys (g :: rest) = groupKeys g ++ allCityKeys rest := by
  simp [allCityKeys]

lemma groupCountries_cons_none {g : CountryGroup} {rest : List CountryGroup}
    (h : g.country = none) : groupCountries (g :: rest) = groupCountries rest := by
  simp [groupCountries, List.filterMap_cons, h]

lemma groupCountries_cons_some {g : CountryGroup} {rest : List CountryGroup} {c : String}
    (h : g.country = some c) : groupCountries (g :: rest) = c :: groupCountries rest := by
  simp [groupCountries, List.filterMap_cons, h]

/-- Inner-loop invariant: every processed city appends one name to the (present)
country entry and one fresh key to `citiesData`, so the count difference is
preserved; the data keys grow only by the group's keys and the country keys do
not change. This holds whether or not the loop runs to completion. -/
lemma loadCities_balance (c : String) (cities : List RawCity) :
    ∀ st : Catalog, c ∈ keys st.countries →
      (∀ k ∈ cityKeys c cities, k ∉ keys st.citiesData) →
      (cityKeys c cities).Nodup →
      sumCounts (loadCities st c cities).1.countries + st.citiesData.length
          = sumCounts st.countries + (loadCities st c cities).1.citiesData.length ∧
        (∀ k ∈ keys (loadCities st c cities).1.citiesData,
            k ∈ keys st.citiesData ∨ k ∈ cityKeys c cities) ∧
        keys (loadCities st c cities).1.countries = keys st.countries := by
  induction cities with
  | nil =>
    intro st _ _ _
    simp only [loadCities]
    exact ⟨trivial, fun k hk => Or.inl hk, trivial⟩
  | cons rc rest ih =>
    intro st hc hf hn
    cases hname : rc.cityName with
    | none =>
      simp only [loadCities, loadCity, hname]
      exact ⟨trivial, fun k hk => Or.inl hk, trivial⟩
    | some name =>
      have hck : cityKeys c (rc :: rest) = cityKey name c :: cityKeys c rest := by
        simp [cityKeys, List.filterMap_cons, hname]
      set st' : Catalog := ⟨dictInsert (cityKey name c) (mkRecord name c rc) st.citiesData,
        dictAppend c name st.countries⟩ with hst'
      have hstep : loadCities st c (rc :: rest) = loadCities st' c rest := by
        simp only [loadCities, loadCity, hname]
      have hfresh : cityKey name c ∉ keys st.citiesData := by
        apply hf
        rw [hck]
        exact List.mem_cons_self _ _
      have hdata : st'.citiesData
          = st.citiesData ++ [(cityKey name c, mkRecord name c rc)] :=
        dictInsert_of_not_mem _ hfresh
      have hkeysData : keys st'.citiesData = keys st.citiesData ++ [cityKey name c] := by
        rw [hdata, keys_append]
        rfl
      have hsum : sumCounts st'.countries = sumCounts st.countries + 1 :=
        sumCounts_dictAppend hc
      have hkc : keys st'.countries = keys st.countries := keys_dictAppend _ _ _
      have hlen : st'.citiesData.length = st.citiesData.length + 1 := by
        rw [hdata]
        simp
      have hf' : ∀ k ∈ cityKeys c rest, k ∉ keys st'.citiesData := by
        intro k hk
        rw [hkeysData]
        simp only [List.mem_append, List.mem_singleton]
        rintro (h | h)
        · exact hf k (by rw [hck]; exact List.mem_cons_of_mem _ hk) h
        · rw [hck] at hn
          exact (List.nodup_cons.1 hn).1 (h ▸ hk)
      have hn' : (cityKeys c rest).Nodup := by
        rw [hck] at hn
        exact (List.nodup_cons.1 hn).2
      have hc' : c ∈ keys st'.countries := by
        rw [hkc]
        exact hc
      obtain ⟨ihbal, ihsub, ihkeys⟩ := ih st' hc' hf' hn'
      rw [hstep]
      refine ⟨?_, ?_, ihkeys.trans hkc⟩
      · rw [hlen, hsum] at ihbal
        omega
      · intro k hk
        rcases ihsub k hk with h | h
        · rw [hkeysData] at h
          rcases List.mem_append.1 h with h1 | h1
          · exact Or.inl h1
          · right
            rw [List.mem_singleton] at h1
            rw [hck, h1]
            exact List.mem_cons_self _ _
        · right
          rw [hck]
          exact List.mem_cons_of_mem _ h

/-- Group-level invariant: assuming the group's country is fresh and its keys
are fresh and duplicate-free, one group iteration preserves the count/length
difference; the data keys grow only by the group's keys and the country keys
only by the group's country. -/
lemma loadGroup_balance (g : CountryGroup) (st : Catalog)
    (hc : ∀ c, g.country = some c → c ∉ keys st.countries)
    (hf : ∀ k ∈ groupKeys g, k ∉ keys st.citiesData)
    (hn : (groupKeys g).Nodup) :
    sumCounts (loadGroup st g).1.countries + st.citiesData.length
        = sumCounts st.countries + (loadGroup st g).1.citiesData.length ∧
      (∀ k ∈ keys (loadGroup st g).1.citiesData,
          k ∈ keys st.citiesData ∨ k ∈ groupKeys g) ∧
      (∀ x ∈ keys (loadGroup st g).1.countries,
          x ∈ keys st.countries ∨ g.country = some x) := by
  cases hcountry : g.country with
  | none =>
    simp only [loadGroup, hcountry]
    exact ⟨trivial, fun k hk => Or.inl hk, fun x hx => Or.inl hx⟩
  | some c =>
    set st1 : Catalog := { st with countries := dictInsert c [] st.countries } with hst1
    have hcfresh : c ∉ keys st.countries := hc c hcountry
    have hc1 : st1.countries = st.countries ++ [(c, [])] := dictInsert_of_not_mem _ hcfresh
    have hkeys1 : keys st1.countries = keys st.countries ++ [c] := by
      rw [hc1, keys_append]
      rfl
    have hsum1 : sumCounts st1.countries = sumCounts st.countries := by
      rw [hc1, sumCounts_append]
      simp [sumCounts]
    have hcmem : c ∈ keys st1.countries := by
      rw [hkeys1]
      simp
    have hgk : groupKeys g = cityKeys c g.cities := by
      simp [groupKeys, hcountry]
    have hstep : loadGroup st g = loadCities st1 c g.cities := by
      simp only [loadGroup, hcountry]
    obtain ⟨bal, sub, keq⟩ := loadCities_balance c g.cities st1 hcmem
      (by rw [← hgk]; exact hf) (hgk ▸ hn)
    rw [hstep]
    refine ⟨?_, ?_, ?_⟩
    · rw [hsum1] at bal
      exact bal
    · intro k hk
      rcases sub k hk with h | h
      · exact Or.inl h
      · exact Or.inr (hgk ▸ h)
    · intro x hx
      rw [keq, hkeys1] at hx
      rcases List.mem_append.1 hx with h1 | h1
      · exact Or.inl h1
      · rw [List.mem_singleton] at h1
        right
        rw [h1]

/-- Outer-loop invariant: for a dataset with duplicate-free country names and
duplicate-free composite keys (all fresh with respect to the starting state),
the per-country counts and the number of stored records stay in lockstep, even
if the load aborts partway. -/
lemma loadGroups_balance (gs : List CountryGroup) :
    ∀ st : Catalog,
      (∀ c ∈ groupCountries gs, c ∉ keys st.countries) →
      (groupCountries gs).Nodup →
      (∀ k ∈ allCityKeys gs, k ∉ keys st.citiesData) →
      (allCityKeys gs).Nodup →
      sumCounts (loadGroups st gs).1.countries + st.citiesData.length
          = sumCounts st.countries + (loadGroups st gs).1.citiesData.length ∧
        (∀ k ∈ keys (loadGroups st gs).1.citiesData,
            k ∈ keys st.citiesData ∨ k ∈ allCityKeys gs) ∧
        (∀ x ∈ keys (loadGroups st gs).1.countries,
            x ∈ keys st.countries ∨ x ∈ groupCountries gs) := by
  induction gs with
  | nil =>
    intro st _ _ _ _
    simp only [loadGroups]
    exact ⟨trivial, fun k hk => Or.inl hk, fun x hx => Or.inl hx⟩
  | cons g rest ih =>
    intro st hcf hcn hkf hkn
    have hall := allCityKeys_cons g rest
    have hknr : (allCityKeys rest).Nodup := by
      rw [hall] at hkn
      exact (List.nodup_append.1 hkn).2.1
    have hdisj : (groupKeys g).Disjoint (allCityKeys rest) := by
      rw [hall] at hkn
      exact (List.nodup_append.1 hkn).2.2
    have hgmem : ∀ c, g.country = some c → c ∈ groupCountries (g :: rest) := by
      intro c hcs
      rw [groupCountries_cons_some hcs]
      exact List.mem_cons_self _ _
    have hg := loadGroup_balance g st
      (fun c hcs => hcf c (hgmem c hcs))
      (fun k hk => hkf k (by rw [hall]; exact List.mem_append_left _ hk))
      (by rw [hall] at hkn; exact (List.nodup_append.1 hkn).1)
    rcases hLG : loadGroup st g with ⟨st1, ok⟩
    rw [hLG] at hg
    obtain ⟨bal1, sub1, csub1⟩ := hg
    cases ok with
    | false =>
      have hstep : loadGroups st (g :: rest) = (st1, false) := by
        simp [loadGroups, hLG]
      rw [hstep]
      refine ⟨bal1, ?_, ?_⟩
      · intro k hk
        rcases sub1 k hk with h | h
        · exact Or.inl h
        · right
          rw [hall]
          exact List.mem_append_left _ h
      · intro x hx
        rcases csub1 x hx with h | h
        · exact Or.inl h
        · exact Or.inr (hgmem x h)
    | true =>
      have hstep : loadGroups st (g :: rest) = loadGroups st1 rest := by
        simp [loadGroups, hLG]
      have hcnr : (groupCountries rest).Nodup := by
        cases hgc : g.country with
        | none => rw [groupCountries_cons_none hgc] at hcn; exact hcn
        | some c => rw [groupCountries_cons_some hgc] at hcn; exact (List.nodup_cons.1 hcn).2
      have hcf' : ∀ c ∈ groupCountries rest, c ∉ keys st1.countries := by
        intro c hcr hmem
        rcases csub1 c hmem with h | h
        · exact hcf c (by
            cases hgc : g.country with
            | none => rw [groupCountries_cons_none hgc]; exact hcr
            | some c' => rw [groupCountries_cons_some hgc]; exact List.mem_cons_of_mem _ hcr) h
        · rw [groupCountries_cons_some h] at hcn
          exact (List.nodup_cons.1 hcn).1 hcr
      have hkf' : ∀ k ∈ allCityKeys rest, k ∉ keys st1.citiesData := by
        intro k hkr hmem
        rcases sub1 k hmem with h | h
        · exact hkf k (by rw [hall]; exact List.mem_append_right _ hkr) h
        · exact hdisj h hkr
      obtain ⟨bal2, sub2, csub2⟩ := ih st1 hcf' hcnr hkf' hknr
      rw [hstep]
      have b1 : sumCounts st1.countries + st.citiesData.length
          = sumCounts st.countries + st1.citiesData.length := bal1
      refine ⟨by omega, ?_, ?_⟩
      · intro k hk
        rcases sub2 k hk with h | h
        · rcases sub1 k h with h' | h'
          · exact Or.inl h'
          · right
            rw [hall]
            exact List.mem_append_left _ h'
        · right
          rw [hall]
          exact List.mem_append_right _ h
      · intro x hx
        rcases csub2 x hx with h | h
        · rcases csub1 x h with h' | h'
          · exact Or.inl h'
          · exact Or.inr (hgmem x h')
        · right
          cases hgc : g.country with
          | none => rw [groupCountries_cons_none hgc]; exact h
          | some c' => rw [groupCountries_cons_some hgc]; exact List.mem_cons_of_mem _ h

/-! ### Claim C3 -/

/-- C3 (amended): for every dataset whose composite keys are pairwise distinct
and whose country names are pairwise distinct (no repeated country groups), the
`cityCount` fields returned by `/countries` sum to the `totalCities` value of
the same response — even if the load aborted partway. Duplicate keys or
repeated groups break the equality (see the counterexample). -/
theorem C3_counts_sum (gs : List CountryGroup)
    (hcn : (groupCountries gs).Nodup) (hkn : (allCityKeys gs).Nodup)
    (t tc : ℕ) (lst : List (String × ℕ))
    (h : get_countries (load_cities_data (.parsed gs)) = .ok (t, tc, lst)) :
    (lst.map Prod.snd).sum = tc := by
  set cat := load_cities_data (.parsed gs) with hcat
  have hb := (loadGroups_balance gs Catalog.empty
      (fun c _ hmem => by simp [Catalog.empty, keys] at hmem)
      hcn (fun k _ hmem => by simp [Catalog.empty, keys] at hmem) hkn).1
  have hbal : sumCounts cat.countries = cat.citiesData.length := by
    have hb' : sumCounts cat.countries + Catalog.empty.citiesData.length
        = sumCounts Catalog.empty.countries + cat.citiesData.length := hb
    simpa [Catalog.empty, sumCounts] using hb'
  unfold get_countries at h
  split at h
  · cases h
  · rw [Except.ok.injEq, Prod.mk.injEq, Prod.mk.injEq] at h
    obtain ⟨h1, h2, h3⟩ := h
    rw [← h3, ← h2]
    rw [List.map_map]
    have hcomp : (Prod.snd ∘ fun p : String × List String => (p.1, p.2.length))
        = fun p : String × List String => p.2.length := rfl
    rw [hcomp]
    have hsum := (List.Perm.map (fun p : String × List String => p.2.length)
      (List.perm_insertionSort countGE cat.countries)).sum_eq
    rw [hsum]
    exact hbal

def parisRaw : RawCity := ⟨some "Paris", 150, 60, 70, 75, 80, 12, 40, 45, 70⟩

def lyonRaw : RawCity := ⟨some "Lyon", 140, 55, 65, 70, 70, 10, 35, 40, 72⟩

def franceGroup : CountryGroup := ⟨some "France", [parisRaw, lyonRaw]⟩

/-- A well-formed dataset: two distinct countries, three distinct keys. -/
def twoGroups : List CountryGroup := [germanyGroup, franceGroup]

theorem C3_counts_sum_witness :
    ([(("France" : String), (2 : ℕ)), ("Germany", 1)].map Prod.snd).sum = 3 :=
  C3_counts_sum twoGroups (by decide) (by decide) 2 3 [("France", 2), ("Germany", 1)] rfl

def dupRawX : RawCity := ⟨some "x", 1, 1, 1, 1, 1, 1, 1, 1, 1⟩

/-- One country group listing the same city name twice: both occurrences are
appended to `COUNTRIES["A"]` but they share one composite key in
`CITIES_DATA`. -/
def dupKeyGroups : List CountryGroup := [⟨some "A", [dupRawX, dupRawX]⟩]

theorem C3_counts_sum_cex :
    get_countries (load_cities_data (.parsed dupKeyGroups)) = .ok (1, 1, [("A", 2)]) ∧
    ([(("A" : String), (2 : ℕ))].map Prod.snd).sum ≠ 1 :=
  ⟨rfl, by decide⟩

/-! ### Claim C8 -/

/-- Inner loop, countries component: on success every present city name is
appended to the (unique) entry of the current country. -/
lemma loadCities_countries (c : String) (cities : List RawCity) :
    ∀ (st : Catalog) (l1 l2 : List (String × List String)) (names : List String),
      st.countries = l1 ++ (c, names) :: l2 → c ∉ keys l1 →
      (loadCities st c cities).2 = true →
      (loadCities st c cities).1.countries
        = l1 ++ (c, names ++ cities.filterMap (·.cityName)) :: l2 := by
  induction cities with
  | nil =>
    intro st l1 l2 names hst hl1 _
    simp only [loadCities, List.filterMap_nil, List.append_nil]
    exact hst
  | cons rc rest ih =>
    intro st l1 l2 names hst hl1 hsucc
    cases hname : rc.cityName with
    | none =>
      simp only [loadCities, loadCity, hname] at hsucc
      cases hsucc
    | some name =>
      have hstep : loadCities st c (rc :: rest)
          = loadCities ⟨dictInsert (cityKey name c) (mkRecord name c rc) st.citiesData,
              dictAppend c name st.countries⟩ c rest := by
        simp only [loadCities, loadCity, hname]
      rw [hstep] at hsucc ⊢
      have hst' : (⟨dictInsert (cityKey name c) (mkRecord name c rc) st.citiesData,
          dictAppend c name st.countries⟩ : Catalog).countries
          = l1 ++ (c, names ++ [name]) :: l2 := by
        show dictAppend c name st.countries = _
        rw [hst]
        exact dictAppend_closed _ hl1
      rw [ih _ l1 l2 (names ++ [name]) hst' hl1 hsucc]
      simp [List.filterMap_cons, hname]

/-- One group whose country is new: it is registered at the end with exactly
its own city names. -/
lemma loadGroup_countries_fresh (g : CountryGroup) (c : String) (st : Catalog)
    (hgc : g.country = some c) (hfr : c ∉ keys st.countries)
    (hsucc : (loadGroup st g).2 = true) :
    (loadGroup st g).1.countries = st.countries ++ [(c, groupNames g)] := by
  have hstep : loadGroup st g
      = loadCities { st with countries := dictInsert c [] st.countries } c g.cities := by
    simp only [loadGroup, hgc]
  rw [hstep] at hsucc ⊢
  have hst1 : ({ st with countries := dictInsert c [] st.countries } : Catalog).countries
      = st.countries ++ (c, ([] : List String)) :: [] := by
    show dictInsert c [] st.countries = _
    exact dictInsert_of_not_mem _ hfr
  rw [loadCities_countries c g.cities _ st.countries [] [] hst1 hfr hsucc]
  simp [groupNames]

/-- One group whose country is already registered: `COUNTRIES[country] = []`
resets the entry in place, so only this group's city names survive. -/
lemma loadGroup_countries_replace (g : CountryGroup) (c : String) (st : Catalog)
    (l1 l2 : List (String × List String)) (w : List String)
    (hgc : g.country = some c)
    (hst : st.countries = l1 ++ (c, w) :: l2) (hl1 : c ∉ keys l1)
    (hsucc : (loadGroup st g).2 = true) :
    (loadGroup st g).1.countries = l1 ++ (c, groupNames g) :: l2 := by
  have hstep : loadGroup st g
      = loadCities { st with countries := dictInsert c [] st.countries } c g.cities := by
    simp only [loadGroup, hgc]
  rw [hstep] at hsucc ⊢
  have hst1 : ({ st with countries := dictInsert c [] st.countries } : Catalog).countries
      = l1 ++ (c, ([] : List String)) :: l2 := by
    show dictInsert c [] st.countries = _
    rw [hst]
    exact dictInsert_replace _ hl1
  rw [loadCities_countries c g.cities _ l1 l2 [] hst1 hl1 hsucc]
  simp [groupNames]

/-- Outer loop, countries component, for duplicate-free country names: every
group appends its own entry in dataset order. -/
lemma loadGroups_countries (gs : List CountryGroup) :
    ∀ st : Catalog, (loadGroups st gs).2 = true →
      (∀ c ∈ groupCountries gs, c ∉ keys st.countries) →
      (groupCountries gs).Nodup →
      (loadGroups st gs).1.countries
        = st.countries ++ gs.filterMap (fun g => g.country.map fun c => (c, groupNames g)) := by
  induction gs with
  | nil =>
    intro st _ _ _
    simp [loadGroups]
  | cons g rest ih =>
    intro st hsucc hfr hn
    rcases hLG : loadGroup st g with ⟨st1, ok⟩
    cases ok with
    | false => exact absurd hsucc (by simp [loadGroups, hLG])
    | true =>
      have hstep : loadGroups st (g :: rest) = loadGroups st1 rest := by
        simp [loadGroups, hLG]
      rw [hstep] at hsucc ⊢
      cases hgc : g.country with
      | none =>
        have hbad : (loadGroup st g).2 = false := by simp [loadGroup, hgc]
        rw [hLG] at hbad
        cases hbad
      | some c =>
        have hc1 : (loadGroup st g).1.countries = st.countries ++ [(c, groupNames g)] :=
          loadGroup_countries_fresh g c st hgc
            (hfr c (by rw [groupCountries_cons_some hgc]; exact List.mem_cons_self _ _))
            (by rw [hLG])
        rw [hLG] at hc1
        have hkeys1 : keys st1.countries = keys st.countries ++ [c] := by
          rw [hc1, keys_append]
          rfl
        have hfr' : ∀ c' ∈ groupCountries rest, c' ∉ keys st1.countries := by
          intro c' hcr hmem
          rw [hkeys1] at hmem
          rcases List.mem_append.1 hmem with h | h
          · exact hfr c'
              (by rw [groupCountries_cons_some hgc]; exact List.mem_cons_of_mem _ hcr) h
          · rw [List.mem_singleton] at h
            rw [groupCountries_cons_some hgc] at hn
            exact (List.nodup_cons.1 hn).1 (h ▸ hcr)
        have hn' : (groupCountries rest).Nodup := by
          rw [groupCountries_cons_some hgc] at hn
          exact (List.nodup_cons.1 hn).2
        rw [ih st1 hsucc hfr' hn', hc1]
        simp [List.filterMap_cons, hgc]

/-- C8 (corrected/amended): on a fully processed dataset whose country names
are pairwise distinct, `citiesByCountry` maps each country, in group order, to
the ordered (non-deduplicated) sequence of its city names; when the same
country occurs in two groups, the second registration resets the entry, so only
the last group's city names remain. -/
theorem C8_citiesByCountry :
    (∀ gs : List CountryGroup, (loadGroups Catalog.empty gs).2 = true →
        (groupCountries gs).Nodup →
        (load_cities_data (.parsed gs)).countries
          = gs.filterMap (fun g => g.country.map fun c => (c, groupNames g))) ∧
    (∀ (c : String) (cs1 cs2 : List RawCity),
        (loadGroups Catalog.empty [⟨some c, cs1⟩, ⟨some c, cs2⟩]).2 = true →
        (load_cities_data (.parsed [⟨some c, cs1⟩, ⟨some c, cs2⟩])).countries
          = [(c, cs2.filterMap (·.cityName))]) := by
  constructor
  · intro gs hsucc hn
    show (loadGroups Catalog.empty gs).1.countries = _
    rw [loadGroups_countries gs Catalog.empty hsucc
      (fun c _ hmem => by simp [Catalog.empty, keys] at hmem) hn]
    rfl
  · intro c cs1 cs2 hsucc
    rcases hL1 : loadGroup Catalog.empty ⟨some c, cs1⟩ with ⟨st1, ok1⟩
    cases ok1 with
    | false => exact absurd hsucc (by simp [loadGroups, hL1])
    | true =>
      have hstep1 : loadGroups Catalog.empty [(⟨some c, cs1⟩ : CountryGroup), ⟨some c, cs2⟩]
          = loadGroups st1 [⟨some c, cs2⟩] := by
        simp [loadGroups, hL1]
      rw [hstep1] at hsucc
      rcases hL2 : loadGroup st1 ⟨some c, cs2⟩ with ⟨st2, ok2⟩
      cases ok2 with
      | false => exact absurd hsucc (by simp [loadGroups, hL2])
      | true =>
        have hstep2 : loadGroups st1 [(⟨some c, cs2⟩ : CountryGroup)] = (st2, true) := by
          simp [loadGroups, hL2]
        have hc1 : st1.countries = [(c, groupNames ⟨some c, cs1⟩)] := by
          have hfresh := loadGroup_countries_fresh ⟨some c, cs1⟩ c Catalog.empty rfl
            (by simp [Catalog.empty, keys]) (by rw [hL1])
          rw [hL1] at hfresh
          simpa [Catalog.empty] using hfresh
        have hc2 : st2.countries = [(c, groupNames ⟨some c, cs2⟩)] := by
          have hrep := loadGroup_countries_replace ⟨some c, cs2⟩ c st1
            [] [] (groupNames ⟨some c, cs1⟩) rfl (by simpa using hc1)
            (by simp [keys]) (by rw [hL2])
          rw [hL2] at hrep
          simpa using hrep
        show (loadGroups Catalog.empty [(⟨some c, cs1⟩ : CountryGroup), ⟨some c, cs2⟩]).1.countries = _
        rw [hstep1, hstep2]
        rw [hc2]
        rfl

theorem C8_citiesByCountry_witness :
    (load_cities_data (.parsed twoGroups)).countries
      = twoGroups.filterMap (fun g => g.country.map fun c => (c, groupNames g)) :=
  C8_citiesByCountry.1 twoGroups rfl (by decide)

def yRaw : RawCity := ⟨some "y", 1, 1, 1, 1, 1, 1, 1, 1, 1⟩

/-- The same country in two groups: the second `COUNTRIES["A"] = []` erases the
first group's city names. -/
def dupCountryGroups : List CountryGroup := [⟨some "A", [dupRawX]⟩, ⟨some "A", [yRaw]⟩]

theorem C8_citiesByCountry_cex :
    (load_cities_data (.parsed dupCountryGroups)).countries = [("A", ["y"])] ∧
    (["y"] : List String) ≠ ["x", "y"] :=
  ⟨rfl, by decide⟩

/-! ### Claim C4 -/

/-- A dataset whose second group is malformed (missing `"country"` key): the
load aborts after the first group has been stored. -/
def failGroups : List CountryGroup := [⟨some "A", [dupRawX]⟩, ⟨none, []⟩]

/-- C4 (corrected/amended): if the source cannot be read or parsed, the
exception is raised before any global is touched and the Catalog stays empty;
but a failure partway through the group sequence stops the loop with the state
accumulated so far kept — the concrete failing dataset leaves one record
stored, so the Catalog can be partially populated. -/
theorem C4_load_failure :
    (∀ msg : String, load_cities_data (.parseError msg) = Catalog.empty) ∧
    (∀ (st : Catalog) (gs1 : List CountryGroup) (g : CountryGroup) (gs2 : List CountryGroup),
        (loadGroups st gs1).2 = true →
        (loadGroup (loadGroups st gs1).1 g).2 = false →
        loadGroups st (gs1 ++ g :: gs2) = ((loadGroup (loadGroups st gs1).1 g).1, false)) ∧
    (loadGroups Catalog.empty failGroups).2 = false ∧
    (load_cities_data (.parsed failGroups)).citiesData
      = [(cityKey "x" "A", mkRecord "x" "A" dupRawX)] := by
  refine ⟨fun _ => rfl, ?_, rfl, rfl⟩
  intro st gs1
  induction gs1 generalizing st with
  | nil =>
    intro g gs2 _ hfail
    rcases hLG : loadGroup st g with ⟨st', ok⟩
    cases ok with
    | true =>
      rw [show (loadGroups st []).1 = st from rfl, hLG] at hfail
      cases hfail
    | false =>
      rw [show (loadGroups st []).1 = st from rfl, hLG]
      simp [loadGroups, hLG]
  | cons g1 rest ih =>
    intro g gs2 hsucc hfail
    rcases hL1 : loadGroup st g1 with ⟨st1, ok1⟩
    cases ok1 with
    | false => exact absurd hsucc (by simp [loadGroups, hL1])
    | true =>
      have hred : loadGroups st (g1 :: rest) = loadGroups st1 rest := by
        simp [loadGroups, hL1]
      rw [hred] at hsucc hfail
      have hred2 : loadGroups st (g1 :: (rest ++ g :: gs2)) = loadGroups st1 (rest ++ g :: gs2) := by
        simp [loadGroups, hL1]
      show loadGroups st (g1 :: (rest ++ g :: gs2)) = _
      rw [hred2, hred]
      exact ih st1 g gs2 hsucc hfail

theorem C4_load_failure_witness :
    load_cities_data (.parseError "boom") = Catalog.empty ∧
    loadGroups Catalog.empty ([(⟨some "A", [dupRawX]⟩ : CountryGroup)] ++ (⟨none, []⟩ : CountryGroup) :: [])
      = ((loadGroup (loadGroups Catalog.empty [(⟨some "A", [dupRawX]⟩ : CountryGroup)]).1 ⟨none, []⟩).1, false) :=
  ⟨C4_load_failure.1 "boom",
   C4_load_failure.2.1 Catalog.empty [⟨some "A", [dupRawX]⟩] ⟨none, []⟩ [] rfl rfl⟩

theorem C4_load_failure_cex :
    (loadGroups Catalog.empty failGroups).2 = false ∧
    (load_cities_data (.parsed failGroups)).citiesData ≠ [] :=
  ⟨rfl, by decide⟩
